import Mathlib

/-!
# Shallow embedding of the energia control plane

This file embeds, in Lean, the parts of the `energia` session power manager
that the verified properties are about:

* the environment controller's duration parsing, sequence compilation helpers
  and schedule-swap reconciliation calculus
  (`src/control/environment_controller.rs`),
* the idleness controller's bunch execution, inhibition filtering and
  rollback handling (`src/control/idleness_controller.rs`),
* the sequencer's running-time query (`src/control/sequencer.rs`),
* the brightness and lock effector state machines
  (`src/system/brightness_effector.rs`, `src/system/lock_effector.rs`).

Modelling conventions:

* `Duration` is a natural number of nanoseconds (Rust's `std::time::Duration`
  is an unsigned seconds + nanoseconds pair; `saturating_sub` is truncated
  natural subtraction, `as_secs` is division by `10^9`).
* Rust `u64` arithmetic that can overflow is taken modulo `2^64`
  (release-profile wrapping semantics); `u64` parsing rejects values `≥ 2^64`.
* Effector ports are opaque identifiers (`Port := ℕ`); sending a message to a
  port is recorded in an explicit trace.
* Asynchronous request results (effector replies, brightness reads, child
  process polls) are supplied as explicit oracle inputs.
* `f64` values in the brightness effector are modelled exactly as
  mantissa/exponent pairs `(m, e)` with value `m · 2^e`, and every `f64`
  operation (int-to-float casts, `/`, `*`) as IEEE-754 binary64
  round-to-nearest, ties-to-even, of the exact rational result; the Rust
  `as usize` float cast truncates toward zero and saturates at the `usize`
  bounds.
* Rust `HashSet<String>` values, which are used only for membership,
  difference and intersection, are modelled as `Finset String`.
* Rust functions that can panic (out-of-bounds indexing) return `Option`,
  with `none` marking the panic.
-/

namespace Energia

/-- Nanoseconds; models `std::time::Duration`. -/
abbrev Duration := Nat

/-- `Duration::as_secs`. -/
def Duration.asSecs (d : Duration) : Nat := d / 1000000000

/-- `Duration::from_secs`. -/
def Duration.fromSecs (s : Nat) : Duration := s * 1000000000

/-- `logind_zbus::manager::InhibitType`. -/
inductive InhibitType
  | idle
  | shutdown
  | sleep
  | handlePowerKey
  | handleSuspendKey
  | handleHibernateKey
  | handleLidSwitch
deriving DecidableEq, Repr

/-- `logind_zbus::manager::Mode` (mode of an inhibitor lock). -/
inductive Mode
  | block
  | delay
deriving DecidableEq, Repr

/-- A logind inhibitor as the idleness controller consumes it: its mode and
the set of inhibit types it holds (`what()`); `who`/`why` are only logged and
are omitted. -/
structure Inhibitor where
  what : List InhibitType
  mode : Mode
deriving DecidableEq, Repr

/-- `armaf::RollbackStrategy`. -/
inductive RollbackStrategy
  | onActivity
  | immediate
  | none
deriving DecidableEq, Repr

/-- `armaf::Effect`. -/
structure Effect where
  name : String
  inhibited_by : List InhibitType
  rollback_strategy : RollbackStrategy
deriving DecidableEq, Repr

/-- An `armaf::EffectorPort`, abstracted to an opaque identifier. -/
abbrev Port := Nat

/-- `control::idleness_controller::Action`. -/
structure Action where
  effect : Effect
  recipient : Port
deriving DecidableEq, Repr

/-- `armaf::EffectorMessage`. -/
inductive EffectorMessage
  | execute
  | rollback
  | currentlyAppliedEffects
deriving DecidableEq, Repr

/-- A message observed on some effector port (the trace of `request` calls
made by a controller). -/
inductive PortMsg
  | execute (p : Port)
  | rollback (p : Port)
deriving DecidableEq, Repr

/-- Is this traced message an `Execute` request? -/
def PortMsg.isExecute : PortMsg → Bool
  | .execute _ => true
  | .rollback _ => false

/-- `control::environment_controller::Sequence`:
an ordered list of `(delay, bunch)` pairs. -/
abbrev Sequence := List (Duration × List Action)

/-! ## Duration parsing (`environment_controller::parse_duration`) -/

/-- `char::is_ascii_whitespace` (space, tab, newline, form feed, carriage
return). -/
def isAsciiWhitespace (c : Char) : Bool :=
  c == ' ' || c == '\t' || c == '\n' || c == '\x0c' || c == '\r'

/-- Worker for `str::split_ascii_whitespace`: splits into maximal runs of
non-whitespace characters (empty substrings are not produced). -/
def splitWsAux : List Char → List Char → List (List Char)
  | [], acc => if acc.isEmpty then [] else [acc.reverse]
  | c :: rest, acc =>
    if isAsciiWhitespace c then
      if acc.isEmpty then splitWsAux rest [] else acc.reverse :: splitWsAux rest []
    else
      splitWsAux rest (c :: acc)

/-- `str::split_ascii_whitespace`. -/
def splitAsciiWhitespace (s : String) : List (List Char) :=
  splitWsAux s.toList []

/-- UTF-8 byte length of a component, as Rust's `str::len` returns it. -/
def byteLen (cs : List Char) : Nat := (cs.map Char.utf8Size).sum

/-- Decimal value of a digit string. -/
def digitsVal (ds : List Char) : Nat :=
  ds.foldl (fun acc c => acc * 10 + (c.toNat - '0'.toNat)) 0

/-- Digit-string core of Rust's `str::parse::<u64>()`: at least one ASCII
digit, with the value below `2^64` (overflow is a parse error). -/
def parseU64Digits (ds : List Char) : Except String Nat :=
  if ds ≠ [] ∧ ds.all Char.isDigit then
    if digitsVal ds < 2 ^ 64 then .ok (digitsVal ds)
    else .error "syntax error in duration: numeric component couldn't be parsed"
  else .error "syntax error in duration: numeric component couldn't be parsed"

/-- Rust's `str::parse::<u64>()`: an optional leading `+` followed by the
digit string. -/
def parseU64 (cs : List Char) : Except String Nat :=
  parseU64Digits (if cs.head? = some '+' then cs.tail else cs)

/-- `parse_duration_numeric`: parse the component minus its final byte as a
`u64`.  (This is only reached for all-ASCII components, where dropping the
last byte is dropping the last character.) -/
def parseDurationNumeric (cs : List Char) : Except String Nat :=
  parseU64 cs.dropLast

/-- One iteration of the loop in `parse_duration`: the seconds contributed by
one whitespace-separated component.  `substr.chars().nth(substr.len() - 1)`
indexes characters by the byte length, so any component with a multi-byte
character falls into the `None` arm.  The `u64` multiplications wrap. -/
def parseComponentSeconds (cs : List Char) : Except String Nat :=
  match cs.get? (byteLen cs - 1) with
  | some 's' => parseDurationNumeric cs
  | some 'm' => (parseDurationNumeric cs).map (fun n => n * 60 % 2 ^ 64)
  | some 'h' => (parseDurationNumeric cs).map (fun n => n * 3600 % 2 ^ 64)
  | some _ => .error "syntax error in duration: Duration compoment doesn't have a unit"
  | Option.none => .error "syntax error in duration: Duration compoment too short"

/-- The accumulation loop of `parse_duration`; `seconds` is a `u64`, so the
running sum wraps modulo `2^64`. -/
def parseDurationGo : List (List Char) → Nat → Except String Nat
  | [], acc => .ok acc
  | cs :: rest, acc =>
    match parseComponentSeconds cs with
    | .error e => .error e
    | .ok v => parseDurationGo rest ((acc + v) % 2 ^ 64)

/-- `environment_controller::parse_duration`. -/
def parseDuration (s : String) : Except String Duration :=
  (parseDurationGo (splitAsciiWhitespace s) 0).map Duration.fromSecs

/-- Seconds per duration unit (`s`, `m`, `h`); other characters are not
units. -/
def unitWeight : Char → Nat
  | 's' => 1
  | 'm' => 60
  | 'h' => 3600
  | _ => 0

/-- The mathematical value, in seconds, of a duration component written as a
digit string followed by a unit character. -/
def componentSeconds (cs : List Char) : Nat :=
  digitsVal cs.dropLast * unitWeight (cs.getLast?.getD ' ')

/-- A component of the form `<u64><unit>`: a non-empty ASCII digit string
whose value fits in a `u64`, followed by one of the units `s`, `m`, `h`. -/
def IsU64Component (cs : List Char) : Prop :=
  ∃ ds u, cs = ds ++ [u] ∧ ds ≠ [] ∧ ds.all Char.isDigit ∧
    u ∈ (['s', 'm', 'h'] : List Char) ∧ digitsVal ds < 2 ^ 64

/-- A component the specification rejects: its last character is not a unit,
or its numeric part does not parse as a `u64`. -/
def IsBadComponent (cs : List Char) : Prop :=
  (∀ u, cs.getLast? = some u → u ∉ (['s', 'm', 'h'] : List Char)) ∨
    (∃ e, parseU64 cs.dropLast = .error e)

/-! ## `durations_to_timeouts` -/

/-- `environment_controller::durations_to_timeouts`.  Returns `none` when the
input is empty, where the Rust code's `durations[0]` panics. -/
def durationsToTimeouts (durations : List Duration) : Option (List Nat) :=
  match durations with
  | [] => Option.none
  | d0 :: rest =>
    some (d0.asSecs :: List.zipWith (fun cur prev => Duration.asSecs (cur - prev)) rest durations)

/-! ## Schedule parsing and sequence building -/

/-- A fragment of the `toml::Value` type sufficient for the configuration the
environment controller reads. -/
inductive Toml
  | str (s : String)
  | int (n : Int)
  | table (kv : List (String × Toml))

/-- `toml::Value::get`. -/
def Toml.get? : Toml → String → Option Toml
  | .table kv, key => (kv.find? (fun p => p.1 == key)).map (·.2)
  | _, _ => Option.none

/-- `toml::Value::as_table`. -/
def Toml.asTable? : Toml → Option (List (String × Toml))
  | .table kv => some kv
  | _ => Option.none

/-- `environment_controller::ScheduleType`. -/
inductive ScheduleType
  | externalPower
  | battery
  | lowBattery
deriving DecidableEq, Repr

/-- `ScheduleType::try_from(&str)`. -/
def scheduleTypeOfKey : String → Option ScheduleType
  | "external" => some .externalPower
  | "battery" => some .battery
  | "low_battery" => some .lowBattery
  | _ => Option.none

/-- `environment_controller::Schedule` (a `HashMap<String, Duration>`,
modelled as an association list in the table's key order). -/
abbrev Schedule := List (String × Duration)

/-- `environment_controller::parse_schedule`. -/
def parseSchedule (scheduleConfig : Toml) : Except String Schedule :=
  match scheduleConfig.asTable? with
  | Option.none => .error "Schedule should be a table, not a scalar or array"
  | some kvs => go kvs
where
  go : List (String × Toml) → Except String Schedule
    | [] => .ok []
    | (key, value) :: rest =>
      match value with
      | .str valueStr =>
        match parseDuration valueStr with
        | .error e => .error e
        | .ok d => (go rest).map (fun m => (key, d) :: m)
      | _ => .error ("timeout for " ++ key ++ " is not a string in duration format")

/-- `environment_controller::parse_schedules`: keys that are not schedule
type names are logged and skipped; a parse failure in any schedule aborts. -/
def parseSchedules (config : Toml) : Except String (List (ScheduleType × Schedule)) :=
  let scheduleTables := (config.get? "schedule").bind Toml.asTable? |>.getD []
  go scheduleTables
where
  go : List (String × Toml) → Except String (List (ScheduleType × Schedule))
    | [] => .ok []
    | (key, value) :: rest =>
      match scheduleTypeOfKey key with
      | Option.none => go rest
      | some typ =>
        match parseSchedule value with
        | .error e => .error e
        | .ok schedule => (go rest).map (fun m => (typ, schedule) :: m)

/-- Grouping loop of `sequence_for_schedule`: build the `HashMap<Duration,
Vec<Effect>>`-equivalent map of bunches, resolving each effect name through
the effect-name mapping (`actionFor` bundles `get_effects_for_effector` with
the effector-port lookup); unknown names are a hard error. -/
def buildBunches (actionFor : String → Option Action) :
    Schedule → Except String (List (Duration × List Action))
  | [] => .ok []
  | (effectName, delay) :: rest =>
    match actionFor effectName with
    | Option.none => .error ("Unknown effect name " ++ effectName)
    | some action =>
      (buildBunches actionFor rest).map (fun groups => addToGroup groups delay action)
where
  addToGroup : List (Duration × List Action) → Duration → Action → List (Duration × List Action)
    | [], delay, action => [(delay, [action])]
    | (d, acts) :: rest, delay, action =>
      if d = delay then (d, action :: acts) :: rest
      else (d, acts) :: addToGroup rest delay action

/-- `environment_controller::sequence_for_schedule`.  After grouping and
sorting, the session idle-hint action is appended to the first bunch;
`.ok none` marks the point where `action_bunches[0]` panics on an empty
schedule. -/
def sequenceForSchedule (actionFor : String → Option Action) (idleHintAction : Action)
    (schedule : Schedule) : Except String (Option Sequence) :=
  match buildBunches actionFor schedule with
  | .error e => .error e
  | .ok groups =>
    match (groups.mergeSort (fun a b => a.1 ≤ b.1)) with
    | [] => .ok Option.none
    | (d, acts) :: rest => .ok (some ((d, acts ++ [idleHintAction]) :: rest))

/-! ## Reconciliation (`environment_controller::ReconciliationContext`) -/

/-- `idleness_controller::ReconciliationBunches`, as the environment
controller constructs it (execute actions, rollback ports and the skip set of
effect names). -/
structure ReconciliationBunches where
  execute : Option (List Action)
  rollback : Option (List Port)
  skip_effects : Finset String
deriving DecidableEq

/-- `environment_controller::ReconciliationContext`. -/
structure ReconciliationContext where
  starting_bunch : Nat
  initial_sleep_shorten : Duration
  reconciliation_bunches : ReconciliationBunches
deriving DecidableEq

/-- `ReconciliationContext::empty`. -/
def ReconciliationContext.empty : ReconciliationContext :=
  ⟨0, 0, ⟨Option.none, Option.none, ∅⟩⟩

/-- `ReconciliationContext::effect_names_from_actions`. -/
def effectNamesFromActions (actions : List Action) : List String :=
  actions.map (·.effect.name)

/-- `ReconciliationContext::skip_effects`. -/
def skipEffectsOf (executedActions futureActions : List Action) : Finset String :=
  (effectNamesFromActions executedActions).toFinset ∩
    (effectNamesFromActions futureActions).toFinset

/-- `ReconciliationContext::reconciliation_bunches`. -/
def reconciliationBunchesOf (executedActions missedActions futureActions : List Action) :
    ReconciliationBunches :=
  let oldSet := (effectNamesFromActions executedActions).toFinset
  let newSet := (effectNamesFromActions missedActions).toFinset
  let effectNamesToExecute := newSet \ oldSet
  let actionsToExecute := missedActions.filter (fun a => a.effect.name ∈ effectNamesToExecute)
  let portsToRollback := executedActions.map (·.recipient)
  { execute := if actionsToExecute ≠ [] then some actionsToExecute else Option.none
    rollback := if portsToRollback ≠ [] then some portsToRollback else Option.none
    skip_effects := skipEffectsOf executedActions futureActions }

/-- `ReconciliationContext::passed_bunch_count`: a fold over the sequence,
counting a bunch as executed whenever the countdown still covers its stored
delay and subtracting that delay (saturating). -/
def passedBunchCount (sequence : Sequence) (runningTime : Duration) : Nat × Duration :=
  sequence.foldl
    (fun acc bunch => if bunch.1 ≤ acc.2 then (acc.1 + 1, acc.2 - bunch.1) else acc)
    (0, runningTime)

/-- `ReconciliationContext::calculate`.  Returns `none` where the Rust slice
expressions `old_sequence[0..executed]` / `new_sequence[0..new_start]` /
`new_sequence[new_start..]` would panic (bound beyond the length, which can
only happen for the forced `new_start = 1` on an empty new sequence). -/
def calculate (oldSequence newSequence : Sequence) (runningTime : Duration) :
    Option ReconciliationContext :=
  if runningTime = 0 then some .empty
  else
    let executedOldBunches := (passedBunchCount oldSequence runningTime).1
    let provisional := passedBunchCount newSequence runningTime
    let startAndShorten :=
      if executedOldBunches = 1 ∧ provisional.1 = 0 then ((1 : Nat), (0 : Duration))
      else provisional
    let newStartingBunch := startAndShorten.1
    let sleepShorten := startAndShorten.2
    if executedOldBunches ≤ oldSequence.length ∧ newStartingBunch ≤ newSequence.length then
      let executedActions := (oldSequence.take executedOldBunches).flatMap (·.2)
      let missedActions := (newSequence.take newStartingBunch).flatMap (·.2)
      let futureActions := (newSequence.drop newStartingBunch).flatMap (·.2)
      some ⟨newStartingBunch, sleepShorten,
        reconciliationBunchesOf executedActions missedActions futureActions⟩
    else Option.none

/-- Modelled from the spec: `passed(seq, r)` walks `seq` accumulating each
bunch's delay into a countdown starting at `r`, counting a bunch as passed
whenever the countdown is at least its stored delay; returns
`(executed_count, remaining_countdown)`.  Stated as structural recursion to
be compared with the source's fold `passedBunchCount`. -/
def passedSpec : Sequence → Duration → Nat × Duration
  | [], countdown => (0, countdown)
  | bunch :: rest, countdown =>
    if bunch.1 ≤ countdown then
      let p := passedSpec rest (countdown - bunch.1)
      (p.1 + 1, p.2)
    else passedSpec rest countdown

/-! ## Idleness controller (`control::idleness_controller`) -/

/-- The mutable state of `IdlenessController` (the inhibition-sensor port is
an external input and is passed per call). -/
structure IdlenessControllerState where
  action_bunches : List (List Action)
  current_bunch : Nat
  rollback_stack : List Port
  reconciliation_bunches : ReconciliationBunches
deriving DecidableEq

/-- Outcome of one `handle_message` call: `Ok(())` or `Err(e)`.  The actor
keeps its state and answers the caller either way. -/
inductive StepOutcome
  | ok
  | err (msg : String)
deriving DecidableEq

/-- The block-mode filter in `IdlenessController::get_inhibitors` (delay
inhibitors are handled by systemd itself and dropped). -/
def getBlockInhibitors (inhibitors : List Inhibitor) : List Inhibitor :=
  inhibitors.filter (fun i => i.mode == Mode.block)

/-- `idleness_controller::dedup_inhibit_types`. -/
def dedupInhibitTypes (duplicated : List InhibitType) : List InhibitType :=
  duplicated.foldl (fun deduped t => if t ∈ deduped then deduped else deduped ++ [t]) []

/-- `idleness_controller::find_inhibitors_with_type`. -/
def findInhibitorsWithType (inhibitors : List Inhibitor) (t : InhibitType) : List Inhibitor :=
  inhibitors.filter (fun i => t ∈ i.what)

/-- `IdlenessController::is_current_bunch_inhibited`: the upcoming bunch's
actions chained with the pending reconciliation execute actions declare the
inhibit types to check against the block-mode inhibitors. -/
def isCurrentBunchInhibited (st : IdlenessControllerState) (inhibitors : List Inhibitor) :
    Bool :=
  let blockers := getBlockInhibitors inhibitors
  let upcomingInhibitionTypes := dedupInhibitTypes
    (((st.action_bunches.getD st.current_bunch []) ++
        (st.reconciliation_bunches.execute.getD [])).flatMap (fun a => a.effect.inhibited_by))
  upcomingInhibitionTypes.any (fun t => findInhibitorsWithType blockers t ≠ [])

/-- The execute loop of `handle_idleness` over the concatenated action list,
given the per-request success oracle `results` (indexed by position in the
iteration).  Returns the trace of `Execute` requests, the recipients pushed
onto the rollback stack (`OnActivity`, in push order), and the collected
immediate-rollback recipients (in collection order).  The `None` rollback
strategy (`armaf::RollbackStrategy::None`, a one-shot effect) is neither
pushed nor collected. -/
def applyActions (results : Nat → Bool) : List Action → Nat → List PortMsg × List Port × List Port
  | [], _ => ([], [], [])
  | a :: rest, i =>
    let r := applyActions results rest (i + 1)
    if results i then
      match a.effect.rollback_strategy with
      | .onActivity => (.execute a.recipient :: r.1, a.recipient :: r.2.1, r.2.2)
      | .immediate => (.execute a.recipient :: r.1, r.2.1, a.recipient :: r.2.2)
      | .none => (.execute a.recipient :: r.1, r.2.1, r.2.2)
    else (.execute a.recipient :: r.1, r.2.1, r.2.2)

/-- `IdlenessController::handle_idleness`.  The guards are checked before any
mutation, so on error the state is unchanged and no message is sent;
otherwise the one-shot reconciliation execute bunch is consumed, every action
of the concatenation receives `Execute`, `OnActivity` successes are pushed,
`Immediate` successes are rolled back at bunch end (`rollback_all` pops from
the vector's end), and the bunch index advances. -/
def handleIdleness (st : IdlenessControllerState) (inhibitors : List Inhibitor)
    (results : Nat → Bool) : StepOutcome × IdlenessControllerState × List PortMsg :=
  if st.current_bunch = st.action_bunches.length then
    (.err "No more action bunches to execute.", st, [])
  else if isCurrentBunchInhibited st inhibitors then
    (.err "Upcoming bunch is inhibited", st, [])
  else
    let reconciliation := st.reconciliation_bunches.execute.getD []
    let actions := reconciliation ++ st.action_bunches.getD st.current_bunch []
    let r := applyActions results actions 0
    (.ok,
      { st with
        reconciliation_bunches := { st.reconciliation_bunches with execute := Option.none }
        rollback_stack := st.rollback_stack ++ r.2.1
        current_bunch := st.current_bunch + 1 },
      r.1 ++ r.2.2.reverse.map PortMsg.rollback)

/-- `IdlenessController::handle_wakeup`: consume and roll back the
reconciliation rollback ports (`rollback_all` pops from the end, so in
reverse list order), then unwind the whole rollback stack (LIFO), then reset
the bunch index to 0. -/
def handleWakeup (st : IdlenessControllerState) : IdlenessControllerState × List PortMsg :=
  (({ st with
      reconciliation_bunches := { st.reconciliation_bunches with rollback := Option.none }
      rollback_stack := []
      current_bunch := 0 }),
    (st.reconciliation_bunches.rollback.getD []).reverse.map PortMsg.rollback ++
      st.rollback_stack.reverse.map PortMsg.rollback)

/-- The external inputs of one `Idle` message delivery: the inhibition-sensor
reply and the per-action request-success oracle. -/
abbrev IdleStep := List Inhibitor × (Nat → Bool)

/-- A run of `Idle` messages through the idleness controller, accumulating
the port-message trace; on a handler error the actor keeps its state and the
sequencer retries later. -/
def runIdles : IdlenessControllerState → List IdleStep → IdlenessControllerState × List PortMsg
  | st, [] => (st, [])
  | st, step :: rest =>
    let r := handleIdleness st step.1 step.2
    let next := runIdles r.2.1 rest
    (next.1, r.2.2 ++ next.2)

/-- The recipients of the actions a bunch application pushes for an
`OnActivity` `Execute`: the successful actions with the `OnActivity`
strategy, in action order. -/
def onActivityRecipients (actions : List Action) (results : Nat → Bool) : List Port :=
  ((actions.enumFrom 0).filter
    (fun p => results p.1 && p.2.effect.rollback_strategy == RollbackStrategy.onActivity)).map
    (·.2.recipient)

/-- The ports pushed for an `OnActivity` `Execute` over a run of `Idle`
messages, in order of application (steps the handler rejected push
nothing). -/
def runPushed : IdlenessControllerState → List IdleStep → List Port
  | _, [] => []
  | st, step :: rest =>
    let r := handleIdleness st step.1 step.2
    match r.1 with
    | .ok =>
      onActivityRecipients
        (st.reconciliation_bunches.execute.getD [] ++
          st.action_bunches.getD st.current_bunch []) step.2 ++
        runPushed r.2.1 rest
    | .err _ => runPushed r.2.1 rest

/-! ## Sequencer running-time query (`control::sequencer`) -/

/-- `Sequencer::get_running_time`: zero at position 0; otherwise the sum of
the first `p` timeouts (seconds) plus the time elapsed since the last
position change (`Instant::elapsed` is non-negative, i.e. the subtraction
`now − position_changed_at` saturates at zero). -/
def getRunningTime (timeoutSequence : List Nat) (currentPosition : Nat) (elapsed : Duration) :
    Duration :=
  if currentPosition = 0 then 0
  else Duration.fromSecs ((timeoutSequence.take currentPosition).sum) + elapsed

/-! ## IEEE-754 binary64 model

The brightness effector computes with `f64`.  A finite `f64` is an exact
rational `m · 2^e`; every arithmetic operation and int-to-float cast
produces the correctly rounded (round-to-nearest, ties-to-even) binary64
value of its exact rational result.  The model below implements exactly
that rounding for magnitudes in `[2^-200, 2^200)` — far inside the normal
range of binary64, and covering every value the effector can meet
(`i64`/`usize` inputs, their quotients by 100 and pairwise products), so
no subnormal, infinity or NaN can arise.  Everything is computed on
integer pairs so that concrete instances evaluate in the kernel. -/

/-- Round `n / d` (with `d > 0`) to the nearest integer, ties to even. -/
def rhePos (n d : Nat) : Nat :=
  let q := n / d
  let r := n % d
  if 2 * r < d then q
  else if d < 2 * r then q + 1
  else if q % 2 = 0 then q else q + 1

/-- The binary exponent of `n / d` (`n, d > 0`): the largest `e` in
`[-200, 200]` with `2^e ≤ n / d`. -/
def expOfPos (n d : Nat) : Int :=
  (List.range 401).foldl
    (fun acc k =>
      let e : Int := (k : Int) - 200
      let cond : Bool :=
        if 0 ≤ e then decide (d * 2 ^ e.toNat ≤ n) else decide (d ≤ n * 2 ^ (-e).toNat)
      if cond then e else acc)
    (-200)

/-- Round the positive rational `n / d` to binary64: a mantissa/exponent
pair `(M, E)` of value `M · 2^E`, where `M` is `n / (d · 2^E)` rounded
half-to-even and `E` places the mantissa in `[2^52, 2^53]`. -/
def roundF64Pos (n d : Nat) : Nat × Int :=
  let E := expOfPos n d - 52
  if 0 ≤ E then (rhePos n (d * 2 ^ E.toNat), E)
  else (rhePos (n * 2 ^ (-E).toNat) d, E)

/-- A finite binary64 value as an exact mantissa/exponent pair: the value
is `m · 2^e`. -/
abbrev F64 := Int × Int

/-- Round the rational `num / den` (`den > 0`) to binary64. -/
def roundF64Frac (num : Int) (den : Nat) : F64 :=
  if num = 0 then (0, 0)
  else if 0 < num then
    let r := roundF64Pos num.toNat den
    ((r.1 : Int), r.2)
  else
    let r := roundF64Pos (-num).toNat den
    (-(r.1 : Int), r.2)

/-- The exact rational value of a binary64 pair. -/
def pairToRat (a : F64) : ℚ := (a.1 : ℚ) * 2 ^ a.2

/-- IEEE binary64 multiplication: the correctly rounded exact product. -/
def f64Mul (a b : F64) : F64 :=
  let E := a.2 + b.2
  if 0 ≤ E then roundF64Frac (a.1 * b.1 * 2 ^ E.toNat) 1
  else roundF64Frac (a.1 * b.1) (2 ^ (-E).toNat)

/-- IEEE binary64 division by a positive divisor (the effector divides by
`100f64` only): the correctly rounded exact quotient. -/
def f64Div (a b : F64) : F64 :=
  let E := a.2 - b.2
  if 0 ≤ E then roundF64Frac (a.1 * 2 ^ E.toNat) b.1.toNat
  else roundF64Frac a.1 (b.1.toNat * 2 ^ (-E).toNat)

/-- Rust's `as usize` cast of a finite `f64`: truncation toward zero,
saturating at the `usize` bounds. -/
def f64ToUsize (a : F64) : Nat :=
  if a.1 < 0 then 0
  else
    let v := if 0 ≤ a.2 then a.1.toNat * 2 ^ a.2.toNat else a.1.toNat / 2 ^ (-a.2).toNat
    min v (2 ^ 64 - 1)

/-! ## Brightness effector (`system::brightness_effector`) -/

/-- The `dim_fraction` computation in `BrightnessEffector::spawn`: the `f64`
literal `0.5` (exactly `1 · 2^-1`) without a brightness config section;
otherwise `*dim_percentage as f64 / 100f64` — the cast and the division each
correctly rounded — where a section without an integer `dim_percentage` is
an error.  There is no clamping. -/
def brightnessDimFraction (config : Option Toml) : Except String F64 :=
  match config with
  | Option.none => .ok (1, -1)
  | some someConfig =>
    match someConfig.get? "dim_percentage" with
    | some (.int dimPercentage) => .ok (f64Div (roundF64Frac dimPercentage 1) (100, 0))
    | _ => .error "Couldn't find dim_percentage in brightness config or it's not an integer"

/-- `BrightnessEffectorActor::handle_message`.  The state is
`original_brightness`; `getRes` is the `get_brightness` reply and `setOk`
whether a `set_brightness` call succeeds.  The second component is the trace
of values passed to `set_brightness`; `dim_screen` computes
`(current_brightness as f64 * self.dim_fraction) as usize`. -/
def brightnessHandle (originalBrightness : Option Nat) (dimFraction : F64)
    (getRes : Except Unit Nat) (setOk : Bool) :
    EffectorMessage → Except String (Option Nat × Nat) × List Nat
  | .execute =>
    match originalBrightness with
    | some _ => (.error "Trying to dim an already dimmed display.", [])
    | Option.none =>
      match getRes with
      | .error _ => (.error "get_brightness failed", [])
      | .ok currentBrightness =>
        let target := f64ToUsize (f64Mul (roundF64Frac currentBrightness 1) dimFraction)
        if setOk then (.ok (some currentBrightness, 1), [target])
        else (.error "set_brightness failed", [target])
  | .rollback =>
    match originalBrightness with
    | some b => if setOk then (.ok (Option.none, 0), [b]) else (.error "set_brightness failed", [b])
    | Option.none => (.error "Rollback called without previous dimming.", [])
  | .currentlyAppliedEffects =>
    (.ok (originalBrightness, if originalBrightness.isSome then 1 else 0), [])

/-! ## Lock effector (`system::lock_effector`) -/

/-- The possible outcomes of `oneshot::Receiver::try_recv` on the locker
watch channel: still running, child finished (with success flag), or the
watch task died. -/
inductive ChildPoll
  | empty
  | value (ok : Bool)
  | closed
deriving DecidableEq

/-- `LockEffectorActor::update_child_status`: with a live receiver, drop it
unless the child is still running; without one, do nothing.  The resulting
`Bool` is `status_receiver.is_some()`. -/
def updateChildStatus (hasReceiver : Bool) (poll : ChildPoll) : Bool :=
  if hasReceiver then
    match poll with
    | .empty => true
    | _ => false
  else false

/-- `LockEffectorActor::handle_message`.  Every message first synchronizes
with the child status (`poll`); `awaitRes` is the outcome of awaiting the
locker's exit on `Rollback`. -/
def lockHandle (hasReceiver : Bool) (poll : ChildPoll) (awaitRes : Except Unit Unit) :
    EffectorMessage → Except String (Bool × Nat)
  | msg =>
    let isLocked := updateChildStatus hasReceiver poll
    match msg with
    | .execute =>
      if isLocked then .error "System is already locked" else .ok (true, 1)
    | .rollback =>
      if isLocked then
        match awaitRes with
        | .error _ => .error "locker wait failed"
        | .ok _ => .ok (false, 0)
      else .ok (isLocked, 0)
    | .currentlyAppliedEffects => .ok (isLocked, if isLocked then 1 else 0)

/-! ## Helper lemmas -/

theorem zipWith_getElem?_eq {α β γ : Type} (f : α → β → γ) :
    ∀ (as : List α) (bs : List β) (i : Nat),
      (List.zipWith f as bs)[i]? = as[i]?.bind fun a => bs[i]?.map fun b => f a b
  | [], _, _ => by simp
  | _ :: _, [], _ => by simp
  | a :: as, b :: bs, 0 => by simp
  | a :: as, b :: bs, i + 1 => by
    simpa using zipWith_getElem?_eq f as bs i

/-! ## C8: durations_to_timeouts -/

/-- **C8.** For every non-empty list of durations `d`, `durations_to_timeouts`
returns a list of equal length whose first element is `d[0]` in whole seconds
and whose element at each later index equals `max(0, d[i] − d[i−1])` in whole
seconds (truncated natural subtraction of nanosecond durations, then whole
seconds). -/
theorem durations_to_timeouts_spec (d : List Duration) (h : d ≠ []) :
    (durationsToTimeouts d).isSome = true ∧
    ((durationsToTimeouts d).getD []).length = d.length ∧
    ((durationsToTimeouts d).getD [])[0]? = some (Duration.asSecs (d.getD 0 0)) ∧
    ∀ i, i + 1 < d.length →
      ((durationsToTimeouts d).getD [])[i + 1]? =
        some (Duration.asSecs (d.getD (i + 1) 0 - d.getD i 0)) := by
  match d, h with
  | d0 :: rest, _ =>
    have hd : durationsToTimeouts (d0 :: rest) =
        some (Duration.asSecs d0 ::
          List.zipWith (fun cur prev => Duration.asSecs (cur - prev)) rest (d0 :: rest)) := rfl
    refine ⟨by rw [hd]; rfl, ?_, by rw [hd]; simp [List.getD], ?_⟩
    · rw [hd]
      simp only [Option.getD_some, List.length_cons, List.length_zipWith]
      omega
    · intro i hi
      have hi' : i < rest.length := by simpa using hi
      have hlen : i < (d0 :: rest).length := by simp; omega
      rw [hd]
      simp only [Option.getD_some, List.getElem?_cons_succ]
      rw [zipWith_getElem?_eq, List.getElem?_eq_getElem hi', List.getElem?_eq_getElem hlen,
        List.getD_cons_succ, List.getD_eq_getElem rest 0 hi',
        List.getD_eq_getElem (d0 :: rest) 0 hlen]
      simp

/-- Witness for C8 at `d = [5 s, 30.05 s]` (in nanoseconds). -/
theorem durations_to_timeouts_spec_witness :
    ((durationsToTimeouts [5000000000, 30050000000]).getD [])[0 + 1]? =
      some (Duration.asSecs (List.getD [5000000000, 30050000000] (0 + 1) 0 -
        List.getD [5000000000, 30050000000] 0 0)) :=
  (durations_to_timeouts_spec [5000000000, 30050000000] (by decide)).2.2.2 0 (by decide)

/-! ## C10: empty schedule table panics -/

/-- **C10.** A parsed configuration whose `schedule.external` table is
present but empty passes the only emptiness guard in
`EnvironmentController::spawn` (the parsed schedule map is non-empty), yet
`sequence_for_schedule` on the resulting empty schedule reaches the
out-of-bounds `action_bunches[0]` when appending the session idle-hint
action (modelled as `.ok none`), and `durations_to_timeouts` likewise
panics on the empty duration list (modelled as `none`) — instead of a
configuration error. -/
theorem empty_schedule_table_panics :
    parseSchedules (Toml.table [("schedule", Toml.table [("external", Toml.table [])])]) =
      .ok [(ScheduleType.externalPower, [])] ∧
    ([((ScheduleType.externalPower : ScheduleType), ([] : Schedule))] ≠ []) ∧
    (∀ (actionFor : String → Option Action) (idleHintAction : Action),
      sequenceForSchedule actionFor idleHintAction [] = .ok Option.none) ∧
    durationsToTimeouts [] = Option.none := by
  refine ⟨rfl, by decide, ?_, rfl⟩
  intro actionFor idleHintAction
  simp [sequenceForSchedule, buildBunches, List.mergeSort]

/-! ## C6: sequencer running-time query -/

/-- **C6 counterexample.** At position 0 with positive elapsed time the query
returns zero, not `sum(t[0..0]) + elapsed = elapsed`: with `t = [5]`,
`p = 0`, `elapsed = 3 ns` the code answers `0`, the claimed formula `3`. -/
theorem get_running_time_position0_counterexample :
    getRunningTime [5] 0 3 = 0 ∧
    getRunningTime [5] 0 3 ≠ Duration.fromSecs (([5] : List Nat).take 0).sum + 3 := by
  decide

/-- **C6 (amended).** At position 0 the running-time query returns zero; at
every position `p > 0` it returns `sum(t[0..p]) + (now − position_changed_at)`
(the elapsed time is non-negative, subtraction saturating), so the result is
at least `sum(t[0..p])`, and while the elapsed time is still below the
timeout `t[p]` of the current position it is below `sum(t[0..p+1])`. -/
theorem get_running_time_spec (t : List Nat) (p : Nat) (e : Duration) :
    (p = 0 → getRunningTime t p e = 0) ∧
    (0 < p → getRunningTime t p e = Duration.fromSecs ((t.take p).sum) + e) ∧
    (0 < p → Duration.fromSecs ((t.take p).sum) ≤ getRunningTime t p e) ∧
    (0 < p → p < t.length → e < Duration.fromSecs (t.getD p 0) →
      getRunningTime t p e < Duration.fromSecs ((t.take (p + 1)).sum)) := by
  have hne : 0 < p → getRunningTime t p e = Duration.fromSecs ((t.take p).sum) + e := by
    intro hp
    simp [getRunningTime, Nat.pos_iff_ne_zero.mp hp]
  refine ⟨fun hp => by simp [getRunningTime, hp], hne, fun hp => ?_, fun hp hlen helt => ?_⟩
  · rw [hne hp]
    exact Nat.le_add_right _ _
  · rw [hne hp]
    have hsum : (t.take (p + 1)).sum = (t.take p).sum + t.getD p 0 := by
      rw [List.take_succ, List.getElem?_eq_getElem hlen, List.getD_eq_getElem t 0 hlen]
      simp only [Option.toList_some, List.sum_append, List.sum_cons, List.sum_nil]
      omega
    rw [hsum]
    unfold Duration.fromSecs
    rw [Nat.add_mul]
    exact Nat.add_lt_add_left helt _

/-- Witness for C6 (amended) at `t = [2, 3]`, `p = 1`, `e = 5`. -/
theorem get_running_time_spec_witness :
    getRunningTime [2, 3] 1 5 = Duration.fromSecs (([2, 3] : List Nat).take 1).sum + 5 :=
  (get_running_time_spec [2, 3] 1 5).2.1 (by decide)

/-! ## C5: effector contracts -/

/-- **C5 counterexample.** The lock effector at depth 0 (no locker child
running) answers `Rollback` with `Ok(0)` instead of failing: the claim that
every effector rejects `Rollback` at depth zero is false. -/
theorem lock_rollback_at_zero_counterexample :
    lockHandle false ChildPoll.empty (.ok ()) EffectorMessage.currentlyAppliedEffects =
      .ok (false, 0) ∧
    lockHandle false ChildPoll.empty (.ok ()) EffectorMessage.rollback = .ok (false, 0) :=
  ⟨rfl, rfl⟩

/-- **C5 (amended).** `Execute` fails when the effector is already saturated
(display already dimmed, locker child already running); `Rollback` at depth
zero fails for the brightness effector but succeeds as a no-op returning 0
for the lock effector; `CurrentlyAppliedEffects` is a pure read: the
brightness state is returned unchanged and the lock handler performs only
the child-status synchronization every message performs. -/
theorem effector_contracts (s : Option Nat) (f : F64) (g : Except Unit Nat) (k : Bool)
    (hr : Bool) (c : ChildPoll) (a : Except Unit Unit) :
    (s.isSome = true → ∃ e, (brightnessHandle s f g k .execute).1 = .error e) ∧
    (∃ e, (brightnessHandle Option.none f g k .rollback).1 = .error e) ∧
    (updateChildStatus hr c = true → ∃ e, lockHandle hr c a .execute = .error e) ∧
    (updateChildStatus hr c = false → lockHandle hr c a .rollback = .ok (false, 0)) ∧
    brightnessHandle s f g k .currentlyAppliedEffects =
      (.ok (s, if s.isSome then 1 else 0), []) ∧
    lockHandle hr c a .currentlyAppliedEffects =
      .ok (updateChildStatus hr c, if updateChildStatus hr c then 1 else 0) := by
  refine ⟨?_, ⟨_, rfl⟩, ?_, ?_, rfl, rfl⟩
  · intro hs
    match s, hs with
    | some b, _ => exact ⟨_, rfl⟩
  · intro hl
    simp [lockHandle, hl]
  · intro hl
    simp [lockHandle, hl]

/-- Witness for C5 (amended): the brightness effector rejects a second
`Execute` while dimmed. -/
theorem effector_contracts_witness :
    ∃ e, (brightnessHandle (some 80) (1, -1) (.ok 80) true .execute).1 = .error e :=
  (effector_contracts (some 80) (1, -1) (.ok 80) true false ChildPoll.empty (.ok ())).1 rfl

/-! ## C9: brightness dim fraction -/

set_option maxRecDepth 8000 in
/-- **C9 counterexample.** Nothing clamps `dim_fraction` to `(0, 1]`: with
`dim_percentage = 200` the computed `f64` is the pair `(2^52, -51)`, whose
exact value is `2` — outside `(0, 1]`.  (The rounding is exact here: `2`
is representable.) -/
theorem brightness_dim_fraction_unclamped_counterexample :
    brightnessDimFraction (some (Toml.table [("dim_percentage", Toml.int 200)])) =
      .ok (4503599627370496, -51) ∧
    pairToRat (4503599627370496, -51) = 2 ∧
    ¬ ((0 : ℚ) < 2 ∧ (2 : ℚ) ≤ 1) := by
  refine ⟨rfl, ?_, by norm_num⟩
  unfold pairToRat
  rw [show ((4503599627370496, -51) : F64).2 = -(51 : Int) from rfl, zpow_neg]
  norm_num

set_option maxRecDepth 8000 in
/-- **C9 (amended).** The dim fraction is the `f64` value `0.5` when no
brightness config section is given, and the correctly rounded `f64`
quotient `dim_percentage / 100` otherwise, with no clamping (it may lie
outside `(0, 1]`); on `Execute` the effector reads the current brightness
and sets it to the `f64` product `current × dim_fraction` truncated toward
zero (saturating at the `usize` bounds), stashing the original, and
`Rollback` restores the stashed original.  Because of `f64` rounding the
value set can differ from `⌊current · dim_percentage / 100⌋`: with
`dim_percentage = 50` and brightness 80 the effector sets 40, but with
`dim_percentage = 29` and brightness 100 it sets 28, not 29 (the product
`100 × 0.29f64` is `28.999999999999996`). -/
theorem brightness_dim_fraction_spec :
    (brightnessDimFraction Option.none = .ok (1, -1) ∧ pairToRat (1, -1) = 1 / 2) ∧
    (∀ p : Int, brightnessDimFraction (some (Toml.table [("dim_percentage", Toml.int p)])) =
      .ok (f64Div (roundF64Frac p 1) (100, 0))) ∧
    (∀ (f : F64) (current : Nat) (g : Except Unit Nat) (k : Bool),
      brightnessHandle Option.none f (.ok current) true .execute =
        (.ok (some current, 1), [f64ToUsize (f64Mul (roundF64Frac current 1) f)]) ∧
      brightnessHandle (some current) f g true .rollback = (.ok (Option.none, 0), [current]) ∧
      brightnessHandle (some current) f g k .currentlyAppliedEffects =
        (.ok (some current, 1), [])) ∧
    (f64ToUsize (f64Mul (roundF64Frac 80 1) (f64Div (roundF64Frac 50 1) (100, 0))) = 40) ∧
    (f64ToUsize (f64Mul (roundF64Frac 100 1) (f64Div (roundF64Frac 29 1) (100, 0))) = 28 ∧
      (28 : Nat) ≠ 100 * 29 / 100) := by
  refine ⟨⟨rfl, ?_⟩, fun p => rfl, fun f current g k => ⟨rfl, rfl, rfl⟩, ?_, ?_, by decide⟩
  · unfold pairToRat
    rw [show ((1, -1) : F64).2 = -(1 : Int) from rfl, zpow_neg]
    norm_num
  · decide
  · decide

/-! ## C1, C2: reconciliation context -/

theorem passedBunchCount_foldl (seq : Sequence) : ∀ (e : Nat) (r : Duration),
    seq.foldl (fun acc bunch => if bunch.1 ≤ acc.2 then (acc.1 + 1, acc.2 - bunch.1) else acc)
      (e, r) = (e + (passedSpec seq r).1, (passedSpec seq r).2) := by
  induction seq with
  | nil => intro e r; simp [passedSpec]
  | cons b rest ih =>
    intro e r
    by_cases h : b.1 ≤ r
    · simp only [List.foldl_cons, if_pos h, passedSpec, ih]
      exact Prod.ext (by omega) rfl
    · simp only [List.foldl_cons, if_neg h, passedSpec, ih]

theorem passedBunchCount_eq_spec (seq : Sequence) (r : Duration) :
    passedBunchCount seq r = passedSpec seq r := by
  unfold passedBunchCount
  rw [passedBunchCount_foldl]
  simp

theorem passedSpec_fst_le_length (seq : Sequence) : ∀ r, (passedSpec seq r).1 ≤ seq.length := by
  induction seq with
  | nil => intro r; simp [passedSpec]
  | cons b rest ih =>
    intro r
    by_cases h : b.1 ≤ r
    · simp only [passedSpec, if_pos h, List.length_cons]
      have := ih (r - b.1)
      omega
    · simp only [passedSpec, if_neg h, List.length_cons]
      have := ih r
      omega

/-- Characterization of `ReconciliationContext::calculate` for a positive
running time over a non-empty new sequence (the non-panicking domain). -/
theorem calculate_eq (oldS newS : Sequence) (r : Duration) (hr : r ≠ 0) (hne : newS ≠ []) :
    calculate oldS newS r =
      some ⟨(if (passedSpec oldS r).1 = 1 ∧ (passedSpec newS r).1 = 0 then 1
              else (passedSpec newS r).1),
            (if (passedSpec oldS r).1 = 1 ∧ (passedSpec newS r).1 = 0 then 0
              else (passedSpec newS r).2),
            reconciliationBunchesOf
              ((oldS.take (passedSpec oldS r).1).flatMap (·.2))
              ((newS.take (if (passedSpec oldS r).1 = 1 ∧ (passedSpec newS r).1 = 0 then 1
                else (passedSpec newS r).1)).flatMap (·.2))
              ((newS.drop (if (passedSpec oldS r).1 = 1 ∧ (passedSpec newS r).1 = 0 then 1
                else (passedSpec newS r).1)).flatMap (·.2))⟩ := by
  have hold := passedSpec_fst_le_length oldS r
  have hnew := passedSpec_fst_le_length newS r
  have hpos : 1 ≤ newS.length := List.length_pos.mpr hne
  unfold calculate
  rw [if_neg hr]
  simp only [passedBunchCount_eq_spec]
  by_cases hc : (passedSpec oldS r).1 = 1 ∧ (passedSpec newS r).1 = 0
  · rw [if_pos hc, if_pos hc, if_pos ⟨hold, hpos⟩]
    simp [hc]
  · rw [if_neg hc, if_neg hc, if_pos ⟨hold, hnew⟩]
    simp [hc]

/-- `(if l ≠ [] then some l else none).getD [] = l`. -/
theorem optionalList_getD (l : List Port) :
    (if l ≠ [] then some l else Option.none).getD [] = l := by
  by_cases h : l = []
  · subst h
    rfl
  · rw [if_pos h]
    rfl

theorem optionalActions_getD (l : List Action) :
    (if l ≠ [] then some l else Option.none).getD [] = l := by
  by_cases h : l = []
  · subst h
    rfl
  · rw [if_pos h]
    rfl

/-- The filtered execute list of `reconciliation_bunches` keeps exactly the
missed actions whose effect name is not among the executed old names. -/
theorem reconciliationBunchesOf_execute (executedActions missedActions futureActions :
    List Action) :
    (reconciliationBunchesOf executedActions missedActions futureActions).execute.getD [] =
      missedActions.filter
        (fun a => a.effect.name ∉ (effectNamesFromActions executedActions).toFinset) := by
  unfold reconciliationBunchesOf
  simp only [optionalActions_getD]
  refine List.filter_congr ?_
  intro a ha
  have hmem : a.effect.name ∈ (effectNamesFromActions missedActions).toFinset := by
    rw [List.mem_toFinset]
    exact List.mem_map.mpr ⟨a, ha, rfl⟩
  rw [decide_eq_decide]
  rw [Finset.mem_sdiff]
  tauto

/-- **C2.** The `(executed_count, remaining_countdown)` pair used by
reconciliation is computed by walking the sequence's bunches in order,
counting a bunch whenever the countdown is at least its stored delay and
subtracting that delay (`passedBunchCount`, the source fold, equals the
spec-level walk `passedSpec`); when `executed_old = 1` and the provisional
new starting bunch is 0 the context is forced to starting bunch 1 with zero
initial-sleep shortening; and at running time 0 the context is empty. -/
theorem reconciliation_passed_walk_spec (oldS newS : Sequence) (r : Duration)
    (hne : newS ≠ []) :
    passedBunchCount oldS r = passedSpec oldS r ∧
    (calculate oldS newS 0 = some ReconciliationContext.empty ∧
      ReconciliationContext.empty.starting_bunch = 0 ∧
      ReconciliationContext.empty.reconciliation_bunches.execute = Option.none ∧
      ReconciliationContext.empty.reconciliation_bunches.rollback = Option.none ∧
      ReconciliationContext.empty.reconciliation_bunches.skip_effects = ∅) ∧
    (0 < r → ∃ ctx, calculate oldS newS r = some ctx ∧
      (((passedSpec oldS r).1 = 1 ∧ (passedSpec newS r).1 = 0) →
        ctx.starting_bunch = 1 ∧ ctx.initial_sleep_shorten = 0) ∧
      (¬ ((passedSpec oldS r).1 = 1 ∧ (passedSpec newS r).1 = 0) →
        ctx.starting_bunch = (passedSpec newS r).1 ∧
        ctx.initial_sleep_shorten = (passedSpec newS r).2)) := by
  refine ⟨passedBunchCount_eq_spec oldS r, ⟨rfl, rfl, rfl, rfl, rfl⟩, ?_⟩
  intro hr
  refine ⟨_, calculate_eq oldS newS r (Nat.pos_iff_ne_zero.mp hr) hne, ?_, ?_⟩
  · intro hc
    simp [if_pos hc]
  · intro hc
    simp [if_neg hc]

/-- Witness for C2 at `old = [(30 s, [])]`, `new = [(40 s, [])]`,
`r = 45 s` (in nanoseconds). -/
theorem reconciliation_passed_walk_spec_witness :
    ∃ ctx, calculate [(30000000000, [])] [(40000000000, [])] 45000000000 = some ctx ∧
      ctx.starting_bunch = (passedSpec [(40000000000, [])] 45000000000).1 ∧
      ctx.initial_sleep_shorten = (passedSpec [(40000000000, [])] 45000000000).2 := by
  obtain ⟨ctx, hctx, -, h2⟩ :=
    (reconciliation_passed_walk_spec [(30000000000, [])] [(40000000000, [])] 45000000000
      (by decide)).2.2 (by decide)
  exact ⟨ctx, hctx, h2 (by decide)⟩

/-- **C1.** For every schedule swap at positive running time (over a
non-empty new sequence), the reconciliation context's execute list holds
exactly the actions of the missed new bunches `new_seq[0..new_start]` whose
effect name is not among the executed old bunches' effect names; its
rollback list holds exactly the recipient ports of all executed old actions
(in order); and its skip set is the intersection of the executed-old effect
names with the effect names of the remaining new bunches
`new_seq[new_start..]`. -/
theorem reconciliation_bunches_spec (oldS newS : Sequence) (r : Duration)
    (hr : 0 < r) (hne : newS ≠ []) :
    ∃ ctx, calculate oldS newS r = some ctx ∧
      ctx.reconciliation_bunches.execute.getD [] =
        ((newS.take ctx.starting_bunch).flatMap (·.2)).filter
          (fun a => a.effect.name ∉
            (effectNamesFromActions
              ((oldS.take (passedBunchCount oldS r).1).flatMap (·.2))).toFinset) ∧
      ctx.reconciliation_bunches.rollback.getD [] =
        ((oldS.take (passedBunchCount oldS r).1).flatMap (·.2)).map (·.recipient) ∧
      ctx.reconciliation_bunches.skip_effects =
        (effectNamesFromActions
          ((oldS.take (passedBunchCount oldS r).1).flatMap (·.2))).toFinset ∩
        (effectNamesFromActions
          ((newS.drop ctx.starting_bunch).flatMap (·.2))).toFinset := by
  rw [calculate_eq oldS newS r (Nat.pos_iff_ne_zero.mp hr) hne, passedBunchCount_eq_spec]
  refine ⟨_, rfl, ?_, ?_, ?_⟩
  · exact reconciliationBunchesOf_execute _ _ _
  · unfold reconciliationBunchesOf
    simp only [optionalList_getD]
  · rfl

/-- Witness for C1: old `[(30, [A])]`, new `[(40, [A]), (10, [C])]` at
`r = 45 s` — `A` already applied is not re-executed, its port is rolled
back, and nothing is skipped. -/
theorem reconciliation_bunches_spec_witness :
    ∃ ctx,
      calculate [(30000000000, [⟨⟨"A", [], .onActivity⟩, 1⟩])]
        [(40000000000, [⟨⟨"A", [], .onActivity⟩, 1⟩]),
         (10000000000, [⟨⟨"C", [], .onActivity⟩, 2⟩])] 45000000000 = some ctx ∧
      ctx.reconciliation_bunches.execute.getD [] = [] ∧
      ctx.reconciliation_bunches.rollback.getD [] = [1] ∧
      ctx.reconciliation_bunches.skip_effects = ∅ := by
  obtain ⟨ctx, hctx, h1, h2, h3⟩ :=
    reconciliation_bunches_spec [(30000000000, [⟨⟨"A", [], .onActivity⟩, 1⟩])]
      [(40000000000, [⟨⟨"A", [], .onActivity⟩, 1⟩]),
       (10000000000, [⟨⟨"C", [], .onActivity⟩, 2⟩])] 45000000000 (by decide) (by decide)
  have hval : calculate [(30000000000, [⟨⟨"A", [], .onActivity⟩, 1⟩])]
      [(40000000000, [⟨⟨"A", [], .onActivity⟩, 1⟩]),
       (10000000000, [⟨⟨"C", [], .onActivity⟩, 2⟩])] 45000000000 =
      some ⟨1, 5000000000, ⟨Option.none, some [1], ∅⟩⟩ := by decide
  have hctxval : ctx = ⟨1, 5000000000, ⟨Option.none, some [1], ∅⟩⟩ :=
    Option.some.inj ((hctx.symm).trans hval)
  subst hctxval
  exact ⟨_, hctx, rfl, rfl, rfl⟩

/-! ## C3: inhibition filtering -/

theorem mem_dedup_foldl (l : List InhibitType) : ∀ (acc : List InhibitType) (t : InhibitType),
    (t ∈ l.foldl (fun deduped t => if t ∈ deduped then deduped else deduped ++ [t]) acc) ↔
      (t ∈ acc ∨ t ∈ l) := by
  induction l with
  | nil => intro acc t; simp
  | cons a rest ih =>
    intro acc t
    rw [List.foldl_cons, ih]
    by_cases h : a ∈ acc
    · rw [if_pos h]
      constructor
      · intro hc
        rcases hc with hc | hc
        · exact Or.inl hc
        · exact Or.inr (List.mem_cons_of_mem a hc)
      · intro hc
        rcases hc with hc | hc
        · exact Or.inl hc
        · rcases List.mem_cons.mp hc with rfl | hc
          · exact Or.inl h
          · exact Or.inr hc
    · rw [if_neg h]
      simp only [List.mem_append, List.mem_singleton, List.mem_cons]
      tauto

theorem mem_dedupInhibitTypes (l : List InhibitType) (t : InhibitType) :
    t ∈ dedupInhibitTypes l ↔ t ∈ l := by
  unfold dedupInhibitTypes
  rw [mem_dedup_foldl]
  simp

theorem filter_ne_nil_iff_exists {α : Type} (p : α → Bool) (l : List α) :
    l.filter p ≠ [] ↔ ∃ x ∈ l, p x = true := by
  rw [Ne, List.filter_eq_nil_iff]
  push_neg
  simp

/-- The boolean inhibition check agrees with the claim-level condition: some
block-mode inhibitor holds an inhibit type declared by the upcoming bunch's
actions or the pending reconciliation execute actions. -/
theorem isCurrentBunchInhibited_iff (st : IdlenessControllerState)
    (inhibitors : List Inhibitor) :
    isCurrentBunchInhibited st inhibitors = true ↔
      ∃ i ∈ inhibitors, i.mode = Mode.block ∧
        ∃ t ∈ (st.action_bunches.getD st.current_bunch [] ++
            st.reconciliation_bunches.execute.getD []).flatMap
            (fun a => a.effect.inhibited_by),
          t ∈ i.what := by
  unfold isCurrentBunchInhibited
  rw [List.any_eq_true]
  constructor
  · rintro ⟨t, ht, hfil⟩
    rw [decide_eq_true_iff] at hfil
    unfold findInhibitorsWithType at hfil
    rw [filter_ne_nil_iff_exists] at hfil
    obtain ⟨i, hi, hwhat⟩ := hfil
    unfold getBlockInhibitors at hi
    rw [List.mem_filter] at hi
    refine ⟨i, hi.1, by simpa using hi.2, t, ?_, by simpa using hwhat⟩
    exact (mem_dedupInhibitTypes _ t).mp ht
  · rintro ⟨i, hi, hmode, t, ht, hwhat⟩
    refine ⟨t, (mem_dedupInhibitTypes _ t).mpr ht, ?_⟩
    rw [decide_eq_true_iff]
    unfold findInhibitorsWithType
    rw [filter_ne_nil_iff_exists]
    refine ⟨i, ?_, by simpa using hwhat⟩
    unfold getBlockInhibitors
    rw [List.mem_filter]
    exact ⟨hi, by simp [hmode]⟩

theorem applyActions_trace (results : Nat → Bool) : ∀ (actions : List Action) (i : Nat),
    (applyActions results actions i).1 =
      actions.map (fun a => PortMsg.execute a.recipient) := by
  intro actions
  induction actions with
  | nil => intro i; rfl
  | cons a rest ih =>
    intro i
    simp only [applyActions, List.map_cons]
    cases h : results i
    · simp only [Bool.false_eq_true, if_neg, h]
      rw [ih]
      simp
    · simp only [if_pos, h]
      cases a.effect.rollback_strategy <;> simp [ih]

/-- **C3.** For an `Idle` message with the bunch index in range: if any
block-mode inhibitor's types intersect the inhibit kinds declared by the
upcoming bunch's actions (including the pending reconciliation execute
actions), the handler returns an error, sends nothing, and leaves the state
(in particular the bunch index) unchanged; otherwise (delay-mode inhibitors
being ignored) every action of the concatenated reconciliation-execute and
bunch list receives an `Execute` request and the bunch index advances by
one. -/
theorem idleness_inhibition_spec (st : IdlenessControllerState) (inhibitors : List Inhibitor)
    (results : Nat → Bool) (hcb : st.current_bunch < st.action_bunches.length) :
    ((∃ i ∈ inhibitors, i.mode = Mode.block ∧
        ∃ t ∈ (st.action_bunches.getD st.current_bunch [] ++
            st.reconciliation_bunches.execute.getD []).flatMap (fun a => a.effect.inhibited_by),
          t ∈ i.what) →
      handleIdleness st inhibitors results = (.err "Upcoming bunch is inhibited", st, [])) ∧
    (¬ (∃ i ∈ inhibitors, i.mode = Mode.block ∧
        ∃ t ∈ (st.action_bunches.getD st.current_bunch [] ++
            st.reconciliation_bunches.execute.getD []).flatMap (fun a => a.effect.inhibited_by),
          t ∈ i.what) →
      ∃ st' trace, handleIdleness st inhibitors results = (.ok, st', trace) ∧
        st'.current_bunch = st.current_bunch + 1 ∧
        trace.filter PortMsg.isExecute =
          (st.reconciliation_bunches.execute.getD [] ++
            st.action_bunches.getD st.current_bunch []).map
            (fun a => PortMsg.execute a.recipient)) := by
  have hne : ¬ st.current_bunch = st.action_bunches.length := Nat.ne_of_lt hcb
  constructor
  · intro h
    have hb : isCurrentBunchInhibited st inhibitors = true :=
      (isCurrentBunchInhibited_iff st inhibitors).mpr h
    unfold handleIdleness
    rw [if_neg hne, if_pos hb]
  · intro h
    have hb : isCurrentBunchInhibited st inhibitors = false := by
      rw [← Bool.not_eq_true, isCurrentBunchInhibited_iff]
      exact h
    simp only [handleIdleness, if_neg hne, hb, Bool.false_eq_true, if_neg]
    refine ⟨_, _, rfl, rfl, ?_⟩
    rw [List.filter_append, applyActions_trace]
    have h1 : ((st.reconciliation_bunches.execute.getD [] ++
        st.action_bunches.getD st.current_bunch []).map
          (fun a => PortMsg.execute a.recipient)).filter PortMsg.isExecute =
        (st.reconciliation_bunches.execute.getD [] ++
          st.action_bunches.getD st.current_bunch []).map
          (fun a => PortMsg.execute a.recipient) := by
      rw [List.filter_eq_self]
      intro m hm
      obtain ⟨a, -, rfl⟩ := List.mem_map.mp hm
      rfl
    have h2 : ∀ ports : List Port,
        (ports.map PortMsg.rollback).filter PortMsg.isExecute = [] := by
      intro ports
      rw [List.filter_eq_nil_iff]
      intro m hm
      obtain ⟨p, -, rfl⟩ := List.mem_map.mp hm
      simp [PortMsg.isExecute]
    rw [h1, h2, List.append_nil]

/-- Witness for C3: one bunch declaring `Idle`, one block-mode `Idle`
inhibitor present — the handler errors and the state is unchanged. -/
theorem idleness_inhibition_spec_witness :
    handleIdleness
      ⟨[[⟨⟨"screen_off", [InhibitType.idle], .onActivity⟩, 3⟩]], 0, [],
        ⟨Option.none, Option.none, ∅⟩⟩
      [⟨[InhibitType.idle], Mode.block⟩] (fun _ => true) =
      (.err "Upcoming bunch is inhibited",
        ⟨[[⟨⟨"screen_off", [InhibitType.idle], .onActivity⟩, 3⟩]], 0, [],
          ⟨Option.none, Option.none, ∅⟩⟩, []) :=
  (idleness_inhibition_spec
    ⟨[[⟨⟨"screen_off", [InhibitType.idle], .onActivity⟩, 3⟩]], 0, [],
      ⟨Option.none, Option.none, ∅⟩⟩
    [⟨[InhibitType.idle], Mode.block⟩] (fun _ => true) (by decide)).1
    ⟨⟨[InhibitType.idle], Mode.block⟩, by decide, rfl, InhibitType.idle, by decide, by decide⟩

/-! ## C4: wakeup rollback -/

theorem applyActions_pushes (results : Nat → Bool) : ∀ (actions : List Action) (i : Nat),
    (applyActions results actions i).2.1 =
      ((actions.enumFrom i).filter
        (fun p => results p.1 && p.2.effect.rollback_strategy == RollbackStrategy.onActivity)).map
        (·.2.recipient) := by
  intro actions
  induction actions with
  | nil => intro i; rfl
  | cons a rest ih =>
    intro i
    simp only [applyActions, List.enumFrom_cons, List.filter_cons]
    cases h : results i
    · simp [h, ih]
    · cases hs : a.effect.rollback_strategy <;> simp [h, hs, ih]

theorem handleIdleness_err_state (st : IdlenessControllerState) (inh : List Inhibitor)
    (results : Nat → Bool) (e : String) (st' : IdlenessControllerState) (tr : List PortMsg)
    (h : handleIdleness st inh results = (.err e, st', tr)) : st' = st ∧ tr = [] := by
  unfold handleIdleness at h
  split at h
  · exact ⟨(Prod.mk.injEq _ _ _ _ |>.mp h).2 |> fun hh => ((Prod.mk.injEq _ _ _ _).mp hh).1.symm,
      (Prod.mk.injEq _ _ _ _ |>.mp h).2 |> fun hh => ((Prod.mk.injEq _ _ _ _).mp hh).2.symm⟩
  · split at h
    · exact ⟨(Prod.mk.injEq _ _ _ _ |>.mp h).2 |> fun hh => ((Prod.mk.injEq _ _ _ _).mp hh).1.symm,
        (Prod.mk.injEq _ _ _ _ |>.mp h).2 |> fun hh => ((Prod.mk.injEq _ _ _ _).mp hh).2.symm⟩
    · exact absurd ((Prod.mk.injEq _ _ _ _).mp h).1 (by simp)

theorem handleIdleness_ok_state (st : IdlenessControllerState) (inh : List Inhibitor)
    (results : Nat → Bool) (st' : IdlenessControllerState) (tr : List PortMsg)
    (h : handleIdleness st inh results = (.ok, st', tr)) :
    st'.rollback_stack = st.rollback_stack ++
      onActivityRecipients
        (st.reconciliation_bunches.execute.getD [] ++
          st.action_bunches.getD st.current_bunch []) results ∧
    st'.reconciliation_bunches.rollback = st.reconciliation_bunches.rollback := by
  unfold handleIdleness at h
  split at h
  · exact absurd ((Prod.mk.injEq _ _ _ _).mp h).1 (by simp)
  · split at h
    · exact absurd ((Prod.mk.injEq _ _ _ _).mp h).1 (by simp)
    · have hst' : st' = { st with
          reconciliation_bunches := { st.reconciliation_bunches with execute := Option.none }
          rollback_stack := st.rollback_stack ++
            (applyActions results
              (st.reconciliation_bunches.execute.getD [] ++
                st.action_bunches.getD st.current_bunch []) 0).2.1
          current_bunch := st.current_bunch + 1 } :=
        (((Prod.mk.injEq _ _ _ _).mp ((Prod.mk.injEq _ _ _ _).mp h).2).1).symm
      subst hst'
      refine ⟨?_, rfl⟩
      rw [applyActions_pushes]
      rfl

theorem runIdles_stack_rollback (steps : List IdleStep) : ∀ st : IdlenessControllerState,
    (runIdles st steps).1.rollback_stack = st.rollback_stack ++ runPushed st steps ∧
    (runIdles st steps).1.reconciliation_bunches.rollback =
      st.reconciliation_bunches.rollback := by
  induction steps with
  | nil => intro st; simp [runIdles, runPushed]
  | cons step rest ih =>
    intro st
    rcases hh : handleIdleness st step.1 step.2 with ⟨o, st', tr⟩
    cases o with
    | err e =>
      obtain ⟨hst, -⟩ := handleIdleness_err_state st step.1 step.2 e st' tr hh
      subst hst
      simp only [runIdles, runPushed, hh]
      exact ih st'
    | ok =>
      obtain ⟨h1, h2⟩ := handleIdleness_ok_state st step.1 step.2 st' tr hh
      simp only [runIdles, runPushed, hh]
      refine ⟨?_, ?_⟩
      · rw [(ih st').1, h1, List.append_assoc]
      · rw [(ih st').2, h2]

/-- **C4 counterexample.** `rollback_all` pops from the end of the vector,
so the reconciliation rollback ports `[1, 2]` are rolled back as `2, 1` —
the reverse of their list order, not "in order" as claimed. -/
theorem wakeup_reconciliation_order_counterexample :
    (handleWakeup ⟨[], 0, [], ⟨Option.none, some [1, 2], ∅⟩⟩).2 =
      [PortMsg.rollback 2, PortMsg.rollback 1] ∧
    (handleWakeup ⟨[], 0, [], ⟨Option.none, some [1, 2], ∅⟩⟩).2 ≠
      [PortMsg.rollback 1, PortMsg.rollback 2] := by
  decide

/-- **C4 (amended).** After any run of `Idle` messages from a state with an
empty rollback stack, the `Awakened` handler first rolls back the
reconciliation rollback ports in reverse list order, consuming the field,
then sends exactly one `Rollback` to each port pushed for an `OnActivity`
`Execute` during the run, in reverse order of application (the whole stack,
LIFO), and finally resets the bunch index to 0. -/
theorem wakeup_rollback_spec (st0 : IdlenessControllerState) (steps : List IdleStep)
    (h0 : st0.rollback_stack = []) :
    handleWakeup (runIdles st0 steps).1 =
      ({ (runIdles st0 steps).1 with
          reconciliation_bunches :=
            { (runIdles st0 steps).1.reconciliation_bunches with rollback := Option.none }
          rollback_stack := []
          current_bunch := 0 },
        (st0.reconciliation_bunches.rollback.getD []).reverse.map PortMsg.rollback ++
          (runPushed st0 steps).reverse.map PortMsg.rollback) := by
  have h := runIdles_stack_rollback steps st0
  unfold handleWakeup
  rw [h.1, h.2, h0]
  simp

/-- Witness for C4 (amended): one bunch with an `OnActivity` action on port
9, a reconciliation rollback port 5, one successful `Idle` step — wakeup
rolls back 5 then 9 and resets the bunch index. -/
theorem wakeup_rollback_spec_witness :
    handleWakeup (runIdles
      ⟨[[⟨⟨"x", [], .onActivity⟩, 9⟩]], 0, [], ⟨Option.none, some [5], ∅⟩⟩
      [([], fun _ => true)]).1 =
      (⟨[[⟨⟨"x", [], .onActivity⟩, 9⟩]], 0, [], ⟨Option.none, Option.none, ∅⟩⟩,
        [PortMsg.rollback 5, PortMsg.rollback 9]) := by
  rw [wakeup_rollback_spec
    ⟨[[⟨⟨"x", [], .onActivity⟩, 9⟩]], 0, [], ⟨Option.none, some [5], ∅⟩⟩
    [([], fun _ => true)] rfl]
  decide

/-! ## C7: duration parsing -/

theorem utf8Size_eq_one_of_toNat_le (c : Char) (h : c.toNat ≤ 127) : c.utf8Size = 1 := by
  unfold Char.utf8Size
  dsimp only
  have hc : c.val ≤ UInt32.ofNatCore 127 Char.utf8Size.proof_1 := h
  rw [if_pos hc]

theorem toNat_le_of_isDigit (c : Char) (h : c.isDigit = true) : c.toNat ≤ 127 := by
  simp [Char.isDigit] at h
  have h3 : c.val.toNat ≤ 57 := h.2
  exact Nat.le_trans h3 (by omega)

theorem utf8Size_eq_one_of_isDigit (c : Char) (h : c.isDigit = true) : c.utf8Size = 1 :=
  utf8Size_eq_one_of_toNat_le c (toNat_le_of_isDigit c h)

theorem byteLen_eq_length {cs : List Char} (h : ∀ c ∈ cs, c.utf8Size = 1) :
    byteLen cs = cs.length := by
  unfold byteLen
  induction cs with
  | nil => rfl
  | cons c rest ih =>
    simp only [List.map_cons, List.sum_cons, List.length_cons,
      h c (List.mem_cons_self c rest)]
    rw [ih (fun x hx => h x (List.mem_cons_of_mem c hx))]
    omega

theorem byteLen_ge_length (cs : List Char) : cs.length ≤ byteLen cs := by
  unfold byteLen
  induction cs with
  | nil => simp
  | cons c rest ih =>
    simp only [List.map_cons, List.sum_cons, List.length_cons]
    have := Char.utf8Size_pos c
    omega

theorem parseComponentSeconds_wf {cs : List Char} (h : IsU64Component cs) :
    parseComponentSeconds cs = .ok (componentSeconds cs % 2 ^ 64) := by
  obtain ⟨ds, u, rfl, hne, hdig, hu, hlt⟩ := h
  have hu3 : u = 's' ∨ u = 'm' ∨ u = 'h' := by simpa using hu
  have hall : ∀ c ∈ ds ++ [u], c.utf8Size = 1 := by
    intro c hc
    rcases List.mem_append.mp hc with hc | hc
    · exact utf8Size_eq_one_of_isDigit c ((List.all_eq_true.mp hdig) c hc)
    · rcases List.mem_singleton.mp hc with rfl
      rcases hu3 with rfl | rfl | rfl <;> decide
  have hbl : byteLen (ds ++ [u]) = ds.length + 1 := by
    rw [byteLen_eq_length hall]
    simp
  have hget : (ds ++ [u]).get? (byteLen (ds ++ [u]) - 1) = some u := by
    rw [hbl]
    have h11 : ds.length + 1 - 1 = ds.length := rfl
    rw [h11, List.get?_eq_getElem?]
    exact List.getElem?_concat_length ds u
  have hnum : parseDurationNumeric (ds ++ [u]) = .ok (digitsVal ds) := by
    unfold parseDurationNumeric parseU64
    rw [List.dropLast_concat]
    have hhead : ¬ (ds.head? = some '+') := by
      cases ds with
      | nil => exact absurd rfl hne
      | cons d rest =>
        simp only [List.head?_cons, Option.some.injEq]
        intro hplus
        subst hplus
        have hd := (List.all_eq_true.mp hdig) '+' (List.mem_cons_self _ _)
        exact absurd hd (by decide)
    rw [if_neg hhead]
    unfold parseU64Digits
    rw [if_pos ⟨hne, hdig⟩, if_pos hlt]
  have hcsec : componentSeconds (ds ++ [u]) = digitsVal ds * unitWeight u := by
    unfold componentSeconds
    rw [List.dropLast_concat]
    simp
  rcases hu3 with rfl | rfl | rfl
  · have harm : parseComponentSeconds (ds ++ ['s']) = parseDurationNumeric (ds ++ ['s']) := by
      unfold parseComponentSeconds
      rw [hget]
      rfl
    rw [harm, hnum, hcsec]
    have hw : unitWeight 's' = 1 := rfl
    rw [hw, Nat.mul_one, Nat.mod_eq_of_lt hlt]
  · have harm : parseComponentSeconds (ds ++ ['m']) =
        (parseDurationNumeric (ds ++ ['m'])).map (fun n => n * 60 % 2 ^ 64) := by
      unfold parseComponentSeconds
      rw [hget]
      rfl
    rw [harm, hnum, hcsec]
    rfl
  · have harm : parseComponentSeconds (ds ++ ['h']) =
        (parseDurationNumeric (ds ++ ['h'])).map (fun n => n * 3600 % 2 ^ 64) := by
      unfold parseComponentSeconds
      rw [hget]
      rfl
    rw [harm, hnum, hcsec]
    rfl

theorem parseComponentSeconds_bad {cs : List Char} (h : IsBadComponent cs) :
    ∃ e, parseComponentSeconds cs = .error e := by
  rcases hres : cs.get? (byteLen cs - 1) with - | c
  · exact ⟨_, by unfold parseComponentSeconds; rw [hres]⟩
  · by_cases hc : c = 's' ∨ c = 'm' ∨ c = 'h'
    · rcases Nat.lt_or_ge cs.length (byteLen cs) with hlt | hge
      · exfalso
        have hnone : cs.get? (byteLen cs - 1) = Option.none :=
          List.get?_eq_none.mpr (by omega)
        rw [hnone] at hres
        exact Option.noConfusion hres
      · have heq : byteLen cs = cs.length := Nat.le_antisymm hge (byteLen_ge_length cs)
        have hlast : cs.getLast? = some c := by
          rw [List.getLast?_eq_getElem?, ← List.get?_eq_getElem?, ← heq]
          exact hres
        rcases h with h1 | h2
        · exact absurd (by simpa using hc) (h1 c hlast)
        · obtain ⟨e, he⟩ := h2
          have hnum : parseDurationNumeric cs = .error e := he
          rcases hc with rfl | rfl | rfl
          · refine ⟨e, ?_⟩
            unfold parseComponentSeconds
            rw [hres]
            exact hnum
          · refine ⟨e, ?_⟩
            unfold parseComponentSeconds
            rw [hres, hnum]
            rfl
          · refine ⟨e, ?_⟩
            unfold parseComponentSeconds
            rw [hres, hnum]
            rfl
    · refine ⟨"syntax error in duration: Duration compoment doesn't have a unit", ?_⟩
      unfold parseComponentSeconds
      rw [hres]
      push_neg at hc
      split <;> simp_all

theorem parseDurationGo_bad : ∀ (comps : List (List Char)) (acc : Nat) (cs : List Char),
    cs ∈ comps → IsBadComponent cs → ∃ e, parseDurationGo comps acc = .error e := by
  intro comps
  induction comps with
  | nil =>
    intro acc cs hm
    exact absurd hm (List.not_mem_nil cs)
  | cons c rest ih =>
    intro acc cs hm hbad
    rcases List.mem_cons.mp hm with rfl | hm
    · obtain ⟨e, he⟩ := parseComponentSeconds_bad hbad
      exact ⟨e, by unfold parseDurationGo; rw [he]⟩
    · rcases hres : parseComponentSeconds c with e | v
      · exact ⟨e, by unfold parseDurationGo; rw [hres]⟩
      · obtain ⟨e, he⟩ := ih ((acc + v) % 2 ^ 64) cs hm hbad
        exact ⟨e, by unfold parseDurationGo; rw [hres]; exact he⟩

theorem parseDurationGo_wf : ∀ (comps : List (List Char)) (acc : Nat), acc < 2 ^ 64 →
    (∀ cs ∈ comps, IsU64Component cs) →
    parseDurationGo comps acc = .ok ((acc + (comps.map componentSeconds).sum) % 2 ^ 64) := by
  intro comps
  induction comps with
  | nil =>
    intro acc hacc _
    simp only [parseDurationGo, List.map_nil, List.sum_nil, Nat.add_zero]
    rw [Nat.mod_eq_of_lt hacc]
  | cons c rest ih =>
    intro acc hacc hwf
    have hc := parseComponentSeconds_wf (hwf c (List.mem_cons_self c rest))
    unfold parseDurationGo
    rw [hc]
    show parseDurationGo rest ((acc + componentSeconds c % 2 ^ 64) % 2 ^ 64) = _
    rw [ih ((acc + componentSeconds c % 2 ^ 64) % 2 ^ 64)
        (Nat.mod_lt _ (by positivity)) (fun x hx => hwf x (List.mem_cons_of_mem c hx))]
    congr 1
    rw [Nat.mod_add_mod]
    have hcomm : acc + componentSeconds c % 2 ^ 64 + (rest.map componentSeconds).sum =
        acc + (rest.map componentSeconds).sum + componentSeconds c % 2 ^ 64 := by omega
    rw [hcomm, Nat.add_mod_mod]
    simp only [List.map_cons, List.sum_cons]
    omega

/-- **C7 counterexample.** The component `18446744073709551615h` parses as a
`u64` but its weighted value overflows: the `u64` multiplication wraps, so
the parser does not return the claimed weighted sum. -/
theorem parse_duration_overflow_counterexample :
    parseDuration "18446744073709551615h" =
      .ok (Duration.fromSecs (18446744073709551615 * 3600 % 2 ^ 64)) ∧
    parseDuration "18446744073709551615h" ≠
      .ok (Duration.fromSecs (18446744073709551615 * 3600)) := by
  refine ⟨rfl, ?_⟩
  intro hcontra
  rw [show parseDuration "18446744073709551615h" =
      .ok (Duration.fromSecs (18446744073709551615 * 3600 % 2 ^ 64)) from rfl] at hcontra
  exact absurd (Except.ok.inj hcontra) (by decide)

/-- **C7 (amended).** For every string whose whitespace-separated components
all have the form `<u64><unit>` with unit in `{s, m, h}`, `parse_duration`
returns the sum of the components' values weighted by their units in seconds
provided that sum is below `2^64` (on overflow the `u64` arithmetic wraps
modulo `2^64`), and the result is independent of component order; every
string containing a component whose last character is not one of `s`/`m`/`h`
or whose numeric part does not parse as a `u64` yields an error. -/
theorem parse_duration_spec (s t : String)
    (hwf : ∀ cs ∈ splitAsciiWhitespace s, IsU64Component cs)
    (hsum : ((splitAsciiWhitespace s).map componentSeconds).sum < 2 ^ 64)
    (hperm : (splitAsciiWhitespace t).Perm (splitAsciiWhitespace s)) :
    parseDuration s =
      .ok (Duration.fromSecs (((splitAsciiWhitespace s).map componentSeconds).sum)) ∧
    parseDuration t = parseDuration s ∧
    (∀ (r : String) (cs : List Char), cs ∈ splitAsciiWhitespace r → IsBadComponent cs →
      ∃ e, parseDuration r = .error e) := by
  have hz : (0 : Nat) < 2 ^ 64 := by positivity
  have hs : parseDuration s =
      .ok (Duration.fromSecs (((splitAsciiWhitespace s).map componentSeconds).sum)) := by
    unfold parseDuration
    rw [parseDurationGo_wf (splitAsciiWhitespace s) 0 hz hwf]
    rw [Nat.zero_add, Nat.mod_eq_of_lt hsum]
    rfl
  refine ⟨hs, ?_, ?_⟩
  · have hwf' : ∀ cs ∈ splitAsciiWhitespace t, IsU64Component cs :=
      fun cs hcs => hwf cs (hperm.mem_iff.mp hcs)
    have hsum' : ((splitAsciiWhitespace t).map componentSeconds).sum =
        ((splitAsciiWhitespace s).map componentSeconds).sum :=
      (hperm.map componentSeconds).sum_eq
    unfold parseDuration
    rw [parseDurationGo_wf (splitAsciiWhitespace t) 0 hz hwf',
      parseDurationGo_wf (splitAsciiWhitespace s) 0 hz hwf, hsum']
  · intro r cs hcs hbad
    obtain ⟨e, he⟩ := parseDurationGo_bad (splitAsciiWhitespace r) 0 cs hcs hbad
    exact ⟨e, by unfold parseDuration; rw [he]; rfl⟩

/-- Witness for C7 (amended): `"2m 30s"` parses to 150 seconds and its
reordering `"30s 2m"` parses to the same value. -/
theorem parse_duration_spec_witness :
    parseDuration "2m 30s" = .ok (Duration.fromSecs 150) ∧
    parseDuration "30s 2m" = parseDuration "2m 30s" := by
  have hsplit : splitAsciiWhitespace "2m 30s" = [['2', 'm'], ['3', '0', 's']] := rfl
  have hwf : ∀ cs ∈ splitAsciiWhitespace "2m 30s", IsU64Component cs := by
    intro cs hcs
    rw [hsplit] at hcs
    have hcs2 : cs = ['2', 'm'] ∨ cs = ['3', '0', 's'] := by simpa using hcs
    rcases hcs2 with rfl | rfl
    · exact ⟨['2'], 'm', rfl, by decide, by decide, by decide, by decide⟩
    · exact ⟨['3', '0'], 's', rfl, by decide, by decide, by decide, by decide⟩
  obtain ⟨h1, h2, -⟩ := parse_duration_spec "2m 30s" "30s 2m" hwf (by decide) (by decide)
  rw [hsplit] at h1
  rw [show ((([['2', 'm'], ['3', '0', 's']] : List (List Char)).map componentSeconds).sum) = 150
    from by decide] at h1
  exact ⟨h1, h2⟩

end Energia
